import Mathlib

/-!
Verification of the MCP client session core of `syncable-cli-mcp-server`.

The development shallowly embeds the Python result decoder of the repository
(`render_utility_result`, present in two near-duplicate copies in
`src/utils.py` and `src/mcp_py_client_rust_server_stdio.py`), the JSON
codec the decoder delegates to (the Python `json.loads` / the server-side
serialisation, modelled here by an executable parser and printer over a
JSON value type whose numbers are integers), the session-operation call
order of the demo scripts, and the stream-transport endpoint
configurations the scripts pass at session open.
-/

namespace MCPCore

/-- JSON values as handled by the decoder.  Numbers are modelled as
integers; fractional/exponent number forms are outside the model (the
parser rejects them, see `parseNumber`). Objects keep their members as an
ordered association list. -/
inductive Json where
  | null : Json
  | bool (b : Bool) : Json
  | num (n : Int) : Json
  | str (s : String) : Json
  | arr (xs : List Json) : Json
  | obj (kvs : List (String × Json)) : Json

/-- JSON insignificant whitespace. -/
def isWs (c : Char) : Bool :=
  c = ' ' || c = '\t' || c = '\n' || c = '\r'

/-- Drop leading JSON whitespace. -/
def skipWs : List Char → List Char
  | [] => []
  | c :: l => if isWs c then skipWs l else c :: l

/-- Decimal digit predicate. -/
def isDigitCh (c : Char) : Bool :=
  48 ≤ c.toNat && c.toNat ≤ 57

/-- The character for a single decimal digit. -/
def digitCh (d : Nat) : Char := Char.ofNat (48 + d)

/-- Lower-case hexadecimal digit character. -/
def hexCh (d : Nat) : Char :=
  if d < 10 then Char.ofNat (48 + d) else Char.ofNat (87 + d)

/-- Numeric value of a hexadecimal digit character, if it is one. -/
def hexVal (c : Char) : Option Nat :=
  if 48 ≤ c.toNat && c.toNat ≤ 57 then some (c.toNat - 48)
  else if 97 ≤ c.toNat && c.toNat ≤ 102 then some (c.toNat - 87)
  else if 65 ≤ c.toNat && c.toNat ≤ 70 then some (c.toNat - 55)
  else none

/-- Decimal digit characters of a natural number, most significant first. -/
def natChars (n : Nat) : List Char :=
  if n = 0 then ['0'] else (Nat.digits 10 n).reverse.map digitCh

/-- Serialisation of a JSON number (an integer). -/
def intChars (n : Int) : List Char :=
  if n < 0 then '-' :: natChars n.natAbs else natChars n.natAbs

/-- JSON string escaping for one character: quote and backslash get a
backslash escape, control characters a `\u00XX` escape, everything else
passes through literally. -/
def escChar (c : Char) : List Char :=
  if c = '\"' then ['\\', '\"']
  else if c = '\\' then ['\\', '\\']
  else if c.toNat < 32 then
    ['\\', 'u', '0', '0', hexCh (c.toNat / 16), hexCh (c.toNat % 16)]
  else [c]

/-- Escaped body of a JSON string. -/
def escBody (l : List Char) : List Char := (l.map escChar).flatten

/-- Serialisation of a JSON string, quotes included. -/
def strChars (s : String) : List Char :=
  '\"' :: escBody s.data ++ ['\"']

mutual

/-- Serialisation of a JSON value to characters (compact separators). -/
def ser : Json → List Char
  | .null => "null".data
  | .bool true => "true".data
  | .bool false => "false".data
  | .num n => intChars n
  | .str s => strChars s
  | .arr xs => '[' :: serItems xs
  | .obj kvs => '\x7b' :: serMembers kvs

/-- Serialisation of array elements, up to and including the closing
bracket. -/
def serItems : List Json → List Char
  | [] => [']']
  | [x] => ser x ++ [']']
  | x :: y :: xs => ser x ++ ',' :: serItems (y :: xs)

/-- Serialisation of object members, up to and including the closing
brace. -/
def serMembers : List (String × Json) → List Char
  | [] => ['\x7d']
  | [(k, v)] => strChars k ++ ':' :: ser v ++ ['\x7d']
  | (k, v) :: m :: kvs => strChars k ++ ':' :: ser v ++ ',' :: serMembers (m :: kvs)

end

/-- The server-side encoding of a JSON-shaped report as tool-output text. -/
def dumps (v : Json) : String := String.mk (ser v)

theorem ser_null : ser Json.null = ['n', 'u', 'l', 'l'] := by
  have h : ser Json.null = "null".data := by simp [ser]
  rw [h]

theorem ser_true : ser (Json.bool true) = ['t', 'r', 'u', 'e'] := by
  have h : ser (Json.bool true) = "true".data := by simp [ser]
  rw [h]

theorem ser_false : ser (Json.bool false) = ['f', 'a', 'l', 's', 'e'] := by
  have h : ser (Json.bool false) = "false".data := by simp [ser]
  rw [h]

/-- One-character escape codes and their decoded characters. -/
def escCode (e : Char) : Option Char :=
  if e = '\"' then some '\"'
  else if e = '\\' then some '\\'
  else if e = '/' then some '/'
  else if e = 'b' then some '\x08'
  else if e = 'f' then some '\x0c'
  else if e = 'n' then some '\n'
  else if e = 'r' then some '\r'
  else if e = 't' then some '\t'
  else none

/-- Body of a JSON string literal after the opening quote: returns the
decoded characters and the input after the closing quote.  Mirrors strict
`json.loads` string handling: raw control characters are rejected, the
standard escapes and `\uXXXX` are understood. -/
def parseStrBody : List Char → Option (List Char × List Char)
  | [] => none
  | c :: r =>
    if c = '\"' then some ([], r)
    else if c = '\\' then
      match r with
      | [] => none
      | e :: r1 =>
        if e = 'u' then
          match r1 with
          | h1 :: h2 :: h3 :: h4 :: r2 =>
            match hexVal h1, hexVal h2, hexVal h3, hexVal h4 with
            | some a, some b, some c2, some d =>
              (parseStrBody r2).map fun p =>
                (Char.ofNat (((a * 16 + b) * 16 + c2) * 16 + d) :: p.1, p.2)
            | _, _, _, _ => none
          | _ => none
        else
          match escCode e with
          | some d => (parseStrBody r1).map fun p => (d :: p.1, p.2)
          | none => none
    else if c.toNat < 32 then none
    else (parseStrBody r).map fun p => (c :: p.1, p.2)

/-- Longest leading run of decimal digits. -/
def spanDigits : List Char → (List Char × List Char)
  | [] => ([], [])
  | c :: r =>
    if isDigitCh c then
      let (d, t) := spanDigits r
      (c :: d, t)
    else ([], c :: r)

/-- Value of a most-significant-first digit string. -/
def digitsVal (l : List Char) : Nat :=
  l.foldl (fun a c => a * 10 + (c.toNat - 48)) 0

/-- The integer part of a JSON number, per the JSON grammar: `0` stands
alone, otherwise a nonzero digit starts a digit run. -/
def parseNatPart : List Char → Option (Nat × List Char)
  | [] => none
  | c :: r =>
    if c = '0' then some (0, r)
    else if isDigitCh c then
      let (d, t) := spanDigits r
      some (digitsVal (c :: d), t)
    else none

/-- True when the input does not continue with a fraction or exponent
marker. -/
def noFloatNext : List Char → Bool
  | [] => true
  | c :: _ => !(c = '.' || c = 'e' || c = 'E')

/-- A JSON number.  Fraction and exponent forms are outside the integer
model and rejected. -/
def parseNumber (l : List Char) : Option (Int × List Char) :=
  match l with
  | [] => none
  | c :: r =>
    if c = '-' then
      match parseNatPart r with
      | some (n, t) => if noFloatNext t then some (-(n : Int), t) else none
      | none => none
    else
      match parseNatPart (c :: r) with
      | some (n, t) => if noFloatNext t then some ((n : Int), t) else none
      | none => none

mutual

/-- Fuel-indexed JSON value parser: returns the value and the remaining
input. -/
def parseValue : Nat → List Char → Option (Json × List Char)
  | 0, _ => none
  | fuel + 1, l =>
    match skipWs l with
    | [] => none
    | c :: r =>
      if c = '[' then (parseItems fuel (skipWs r)).map fun p => (Json.arr p.1, p.2)
      else if c = '\x7b' then
        (parseMembers fuel (skipWs r)).map fun p => (Json.obj p.1, p.2)
      else if c = '\"' then
        (parseStrBody r).map fun p => (Json.str (String.mk p.1), p.2)
      else if c = 't' then
        match r with
        | 'r' :: 'u' :: 'e' :: r2 => some (Json.bool true, r2)
        | _ => none
      else if c = 'f' then
        match r with
        | 'a' :: 'l' :: 's' :: 'e' :: r2 => some (Json.bool false, r2)
        | _ => none
      else if c = 'n' then
        match r with
        | 'u' :: 'l' :: 'l' :: r2 => some (Json.null, r2)
        | _ => none
      else if c = '-' || isDigitCh c then
        (parseNumber (c :: r)).map fun p => (Json.num p.1, p.2)
      else none

/-- Array elements after the opening bracket (leading whitespace already
skipped), up to and including the closing bracket. -/
def parseItems : Nat → List Char → Option (List Json × List Char)
  | 0, _ => none
  | fuel + 1, l =>
    match l with
    | [] => none
    | c :: r =>
      if c = ']' then some ([], r)
      else
        match parseValue fuel (c :: r) with
        | none => none
        | some (v, r1) =>
          match skipWs r1 with
          | [] => none
          | d :: r2 =>
            if d = ',' then
              (parseItems fuel (skipWs r2)).map fun p => (v :: p.1, p.2)
            else if d = ']' then some ([v], r2)
            else none

/-- Object members after the opening brace (leading whitespace already
skipped), up to and including the closing brace. -/
def parseMembers : Nat → List Char → Option (List (String × Json) × List Char)
  | 0, _ => none
  | fuel + 1, l =>
    match l with
    | [] => none
    | c :: r =>
      if c = '\x7d' then some ([], r)
      else if c = '\"' then
        match parseStrBody r with
        | none => none
        | some (k, r1) =>
          match skipWs r1 with
          | [] => none
          | d :: r2 =>
            if d = ':' then
              match parseValue fuel (skipWs r2) with
              | none => none
              | some (v, r3) =>
                match skipWs r3 with
                | [] => none
                | e2 :: r4 =>
                  if e2 = ',' then
                    (parseMembers fuel (skipWs r4)).map fun p =>
                      ((String.mk k, v) :: p.1, p.2)
                  else if e2 = '\x7d' then some ([(String.mk k, v)], r4)
                  else none
            else none
      else none

end

/-- The Python `json.loads` collaborator: parse a whole string as one JSON
document (insignificant whitespace allowed around it); `none` models
`json.JSONDecodeError`. -/
def loads (s : String) : Option Json :=
  match parseValue (s.data.length + 1) s.data with
  | some (v, rest) => if skipWs rest = [] then some v else none
  | none => none

mutual

/-- Fuel requirement of `parseValue` for a value. -/
def sizeJ : Json → Nat
  | .null => 1
  | .bool _ => 1
  | .num _ => 1
  | .str _ => 1
  | .arr xs => 1 + sizeItems xs
  | .obj kvs => 1 + sizeMembers kvs

/-- Fuel requirement of `parseItems` for an element list. -/
def sizeItems : List Json → Nat
  | [] => 1
  | x :: xs => sizeJ x + sizeItems xs

/-- Fuel requirement of `parseMembers` for a member list. -/
def sizeMembers : List (String × Json) → Nat
  | [] => 1
  | (_, v) :: kvs => sizeJ v + sizeMembers kvs

end

theorem sizeJ_pos (v : Json) : 1 ≤ sizeJ v := by
  cases v <;> simp [sizeJ]

theorem sizeItems_pos (xs : List Json) : 1 ≤ sizeItems xs := by
  cases xs with
  | nil => simp [sizeItems]
  | cons x xs =>
    have := sizeJ_pos x
    simp only [sizeItems]
    omega

theorem sizeMembers_pos (kvs : List (String × Json)) : 1 ≤ sizeMembers kvs := by
  cases kvs with
  | nil => simp [sizeMembers]
  | cons kv kvs => have := sizeJ_pos kv.2; simp [sizeMembers]; omega

theorem skipWs_cons (c : Char) (l : List Char) (h : isWs c = false) :
    skipWs (c :: l) = c :: l := by
  simp [skipWs, h]

/-- Value of `Char.toNat` at `digitCh d` for a decimal digit. -/
theorem toNat_digitCh (d : Nat) (h : d < 10) : (digitCh d).toNat = 48 + d := by
  interval_cases d <;> decide

theorem isDigitCh_digitCh (d : Nat) (h : d < 10) : isDigitCh (digitCh d) = true := by
  interval_cases d <;> decide

theorem isDigitCh_iff (c : Char) :
    isDigitCh c = true ↔ 48 ≤ c.toNat ∧ c.toNat ≤ 57 := by
  simp [isDigitCh]

/-- A decimal-digit character is not one of the given structural
characters. -/
theorem digit_ne (c : Char) (h : isDigitCh c = true) (d : Char)
    (hd : d.toNat < 48 ∨ 57 < d.toNat) : c ≠ d := by
  intro hEq
  rw [isDigitCh_iff] at h
  subst hEq
  omega

/-- A decimal-digit character is not whitespace. -/
theorem digit_not_ws (c : Char) (h : isDigitCh c = true) : isWs c = false := by
  have w1 : c ≠ ' ' := digit_ne c h ' ' (by decide)
  have w2 : c ≠ '\t' := digit_ne c h '\t' (by decide)
  have w3 : c ≠ '\n' := digit_ne c h '\n' (by decide)
  have w4 : c ≠ '\r' := digit_ne c h '\r' (by decide)
  simp [isWs, w1, w2, w3, w4]

/-- The serialisation of a natural number starts with a decimal digit. -/
theorem natChars_head (m : Nat) :
    ∃ c r, natChars m = c :: r ∧ isDigitCh c = true := by
  by_cases h : m = 0
  · subst h
    exact ⟨'0', [], rfl, by decide⟩
  · have hne : Nat.digits 10 m ≠ [] := Nat.digits_ne_nil_iff_ne_zero.mpr h
    rcases hrev : (Nat.digits 10 m).reverse with _ | ⟨d, ds⟩
    · exact absurd (by simpa using congrArg List.reverse hrev) hne
    · refine ⟨digitCh d, ds.map digitCh, ?_, ?_⟩
      · simp [natChars, h, hrev]
      · have hmem : d ∈ Nat.digits 10 m := by
          have : d ∈ (Nat.digits 10 m).reverse := by
            rw [hrev]; exact List.mem_cons_self d ds
          simpa using this
        exact isDigitCh_digitCh d (Nat.digits_lt_base (by norm_num) hmem)

/-- Every serialised JSON value starts with a non-whitespace character
other than a closing bracket. -/
theorem ser_head (v : Json) :
    ∃ c r, ser v = c :: r ∧ isWs c = false ∧ c ≠ ']' := by
  cases v with
  | null => exact ⟨'n', ['u', 'l', 'l'], by simp [ser], by decide, by decide⟩
  | bool b => cases b with
    | true => exact ⟨'t', ['r', 'u', 'e'], by simp [ser], by decide, by decide⟩
    | false => exact ⟨'f', ['a', 'l', 's', 'e'], by simp [ser], by decide, by decide⟩
  | num n =>
    by_cases h : n < 0
    · exact ⟨'-', natChars n.natAbs, by simp [ser, intChars, h], by decide, by decide⟩
    · rcases natChars_head n.natAbs with ⟨c, r, hc, hdig⟩
      refine ⟨c, r, by simp [ser, intChars, h, hc], digit_not_ws c hdig, ?_⟩
      exact digit_ne c hdig ']' (by decide)
  | str s =>
    exact ⟨'\"', escBody s.data ++ ['\"'], by simp [ser, strChars], by decide, by decide⟩
  | arr xs => exact ⟨'[', serItems xs, by simp [ser], by decide, by decide⟩
  | obj kvs => exact ⟨'\x7b', serMembers kvs, by simp [ser], by decide, by decide⟩

theorem skipWs_ser_append (v : Json) (rest : List Char) :
    skipWs (ser v ++ rest) = ser v ++ rest := by
  rcases ser_head v with ⟨c, r, hc, hws, _⟩
  rw [hc, List.cons_append, skipWs_cons _ _ hws]

theorem serItems_head (xs : List Json) :
    ∃ c r, serItems xs = c :: r ∧ isWs c = false := by
  cases xs with
  | nil => exact ⟨']', [], by simp [serItems], by decide⟩
  | cons x xs =>
    rcases ser_head x with ⟨c, r, hc, hws, _⟩
    cases xs with
    | nil => exact ⟨c, r ++ [']'], by simp [serItems, hc], hws⟩
    | cons y ys => exact ⟨c, r ++ ',' :: serItems (y :: ys), by simp [serItems, hc], hws⟩

theorem serMembers_head (kvs : List (String × Json)) :
    ∃ c r, serMembers kvs = c :: r ∧ isWs c = false := by
  cases kvs with
  | nil => exact ⟨'\x7d', [], by simp [serMembers], by decide⟩
  | cons kv kvs =>
    cases kvs with
    | nil =>
      rcases kv with ⟨k, v⟩
      exact ⟨'\"', escBody k.data ++ '\"' :: ':' :: ser v ++ ['\x7d'],
        by simp [serMembers, strChars], by decide⟩
    | cons m ms =>
      rcases kv with ⟨k, v⟩
      exact ⟨'\"', escBody k.data ++ '\"' :: ':' :: ser v ++ ',' :: serMembers (m :: ms),
        by simp [serMembers, strChars], by decide⟩

theorem skipWs_serItems_append (xs : List Json) (rest : List Char) :
    skipWs (serItems xs ++ rest) = serItems xs ++ rest := by
  rcases serItems_head xs with ⟨c, r, hc, hws⟩
  rw [hc, List.cons_append, skipWs_cons _ _ hws]

theorem skipWs_serMembers_append (kvs : List (String × Json)) (rest : List Char) :
    skipWs (serMembers kvs ++ rest) = serMembers kvs ++ rest := by
  rcases serMembers_head kvs with ⟨c, r, hc, hws⟩
  rw [hc, List.cons_append, skipWs_cons _ _ hws]

/-- A character that may legally follow a serialised value: not a digit
and not a fraction/exponent marker. -/
def delimCh (c : Char) : Bool :=
  !(isDigitCh c) && !(c = '.') && !(c = 'e') && !(c = 'E')

/-- What may legally follow a serialised value (inside a document this is
a separator, a closing bracket, or the end of input). -/
def delimOk : List Char → Bool
  | [] => true
  | c :: _ => delimCh c

theorem delimOk_cons_of (c : Char) (rest : List Char) (h : delimCh c = true) :
    delimOk (c :: rest) = true := h

/-- The input does not continue with a digit. -/
def headNotDigit : List Char → Bool
  | [] => true
  | c :: _ => !(isDigitCh c)

theorem delimOk_headNotDigit (l : List Char) (h : delimOk l = true) :
    headNotDigit l = true := by
  cases l with
  | nil => rfl
  | cons c r =>
    simp [delimOk, delimCh] at h
    obtain ⟨⟨⟨h1, h2⟩, h3⟩, h4⟩ := h
    simp [headNotDigit, h1]

theorem delimOk_noFloatNext (l : List Char) (h : delimOk l = true) :
    noFloatNext l = true := by
  cases l with
  | nil => rfl
  | cons c r =>
    simp [delimOk, delimCh] at h
    obtain ⟨⟨⟨h1, h2⟩, h3⟩, h4⟩ := h
    simp [noFloatNext, h2, h3, h4]

theorem spanDigits_append (l rest : List Char)
    (hl : ∀ c ∈ l, isDigitCh c = true) (hr : headNotDigit rest = true) :
    spanDigits (l ++ rest) = (l, rest) := by
  induction l with
  | nil =>
    cases rest with
    | nil => rfl
    | cons c r =>
      simp [headNotDigit] at hr
      simp [spanDigits, hr]
  | cons c l ih =>
    have hc : isDigitCh c = true := hl c (List.mem_cons_self c l)
    have ih' := ih fun d hd => hl d (List.mem_cons_of_mem c hd)
    simp [spanDigits, hc, ih']

theorem foldl_map_digitCh (l : List Nat) (a : Nat) (h : ∀ d ∈ l, d < 10) :
    (l.map digitCh).foldl (fun acc c => acc * 10 + (c.toNat - 48)) a
      = l.foldl (fun acc d => acc * 10 + d) a := by
  induction l generalizing a with
  | nil => rfl
  | cons d t ih =>
    have hd : d < 10 := h d (List.mem_cons_self d t)
    have ih' := ih (a * 10 + d) fun e he => h e (List.mem_cons_of_mem d he)
    simp only [List.map_cons, List.foldl_cons, toNat_digitCh d hd]
    rw [Nat.add_sub_cancel_left]
    exact ih'

theorem foldl_eq_ofDigits (l : List Nat) (a : Nat) :
    l.foldl (fun acc d => acc * 10 + d) a
      = a * 10 ^ l.length + Nat.ofDigits 10 l.reverse := by
  induction l generalizing a with
  | nil => simp [Nat.ofDigits]
  | cons d t ih =>
    rw [List.foldl_cons, ih (a * 10 + d)]
    simp only [List.reverse_cons, List.length_cons, Nat.ofDigits_append]
    rw [Nat.ofDigits_singleton]
    simp only [List.length_reverse]
    ring

theorem parseNatPart_natChars (m : Nat) (rest : List Char)
    (hr : headNotDigit rest = true) :
    parseNatPart (natChars m ++ rest) = some (m, rest) := by
  by_cases h : m = 0
  · subst h
    cases rest with
    | nil => rfl
    | cons c r => simp [natChars, parseNatPart]
  · have hne : Nat.digits 10 m ≠ [] := Nat.digits_ne_nil_iff_ne_zero.mpr h
    rcases hrev : (Nat.digits 10 m).reverse with _ | ⟨d, ds⟩
    · exact absurd (by simpa using congrArg List.reverse hrev) hne
    · have hdigitsEq : Nat.digits 10 m = ds.reverse ++ [d] := by
        have := congrArg List.reverse hrev
        simpa using this
      have hmem : ∀ e ∈ Nat.digits 10 m, e < 10 := fun e he =>
        Nat.digits_lt_base (by norm_num) he
      have hd10 : d < 10 := by
        refine hmem d ?_
        rw [hdigitsEq]
        simp
      have hds10 : ∀ e ∈ ds, e < 10 := by
        intro e he
        refine hmem e ?_
        rw [hdigitsEq]
        simp
        left
        simpa using he
      have hdne : d ≠ 0 := by
        have hlast := Nat.getLast_digit_ne_zero 10 h
        have : (Nat.digits 10 m).getLast hne = d := by
          rw [List.getLast_eq_iff_getLast?_eq_some]
          rw [← List.head?_reverse, hrev]
          rfl
        rwa [this] at hlast
      have hnatChars : natChars m = digitCh d :: ds.map digitCh := by
        simp [natChars, h, hrev]
      rw [hnatChars]
      have hch0 : digitCh d ≠ '0' := by
        intro hEq
        have := congrArg Char.toNat hEq
        rw [toNat_digitCh d hd10] at this
        have h48 : ('0' : Char).toNat = 48 := by decide
        omega
      simp only [List.cons_append, parseNatPart, hch0, if_false,
        isDigitCh_digitCh d hd10, if_true]
      rw [spanDigits_append (ds.map digitCh) rest
        (fun c hc => by
          rcases List.mem_map.mp hc with ⟨e, he, hce⟩
          exact hce ▸ isDigitCh_digitCh e (hds10 e he)) hr]
      have hval : digitsVal (digitCh d :: ds.map digitCh) = m := by
        have : digitCh d :: ds.map digitCh = (d :: ds).map digitCh := rfl
        rw [digitsVal, this,
          foldl_map_digitCh (d :: ds) 0 (by
            intro e he
            rcases List.mem_cons.mp he with hEq | hmem2
            · exact hEq ▸ hd10
            · exact hds10 e hmem2),
          foldl_eq_ofDigits]
        simp only [List.reverse_cons, ← hdigitsEq]
        simpa using Nat.ofDigits_digits 10 m
      rw [hval]

theorem parseNumber_intChars (n : Int) (rest : List Char)
    (hr : delimOk rest = true) :
    parseNumber (intChars n ++ rest) = some (n, rest) := by
  have hnd := delimOk_headNotDigit rest hr
  have hnf := delimOk_noFloatNext rest hr
  by_cases h : n < 0
  · have : intChars n = '-' :: natChars n.natAbs := by simp [intChars, h]
    rw [this, List.cons_append]
    simp only [parseNumber, if_pos rfl]
    rw [parseNatPart_natChars n.natAbs rest hnd]
    simp only [hnf, if_true]
    congr 1
    have : ((n.natAbs : Int)) = -n := by omega
    rw [Prod.ext_iff]
    constructor
    · simp only []
      omega
    · rfl
  · have hser : intChars n = natChars n.natAbs := by simp [intChars, h]
    rcases natChars_head n.natAbs with ⟨c, r, hc, hdig⟩
    have hcm : c ≠ '-' := digit_ne c hdig '-' (by decide)
    rw [hser, hc, List.cons_append]
    simp only [parseNumber, hcm, if_false]
    rw [← List.cons_append, ← hc, parseNatPart_natChars n.natAbs rest hnd]
    simp only [hnf, if_true]
    congr 2
    omega

theorem hexVal_hexCh (m : Nat) (h : m < 16) : hexVal (hexCh m) = some m := by
  interval_cases m <;> decide

/-- Parsing inverts JSON string escaping. -/
theorem parseStrBody_escBody (l rest : List Char) :
    parseStrBody (escBody l ++ '\"' :: rest) = some (l, rest) := by
  induction l with
  | nil =>
    rw [show escBody [] ++ '\"' :: rest = '\"' :: rest by simp [escBody],
      parseStrBody.eq_def]
    simp
  | cons c t ih =>
    have hstep : escBody (c :: t) = escChar c ++ escBody t := by
      simp [escBody]
    rw [hstep, List.append_assoc]
    by_cases h1 : c = '\"'
    · subst h1
      rw [show escChar '\"' = ['\\', '\"'] from rfl, List.cons_append,
        List.cons_append, List.nil_append, parseStrBody.eq_def]
      simp [escCode, ih]
    · by_cases h2 : c = '\\'
      · subst h2
        rw [show escChar '\\' = ['\\', '\\'] from rfl, List.cons_append,
          List.cons_append, List.nil_append, parseStrBody.eq_def]
        simp [escCode, ih]
      · by_cases h3 : c.toNat < 32
        · have hesc : escChar c =
              ['\\', 'u', '0', '0', hexCh (c.toNat / 16), hexCh (c.toNat % 16)] := by
            simp [escChar, h1, h2, h3]
          rw [hesc]
          have hhi : c.toNat / 16 < 16 := by omega
          have hlo : c.toNat % 16 < 16 := by omega
          simp only [List.cons_append, List.nil_append]
          rw [parseStrBody.eq_def]
          simp only [hexVal_hexCh _ hhi, hexVal_hexCh _ hlo,
            show hexVal '0' = some 0 from by decide]
          simp [ih]
          have harith : c.toNat / 16 * 16 + c.toNat % 16 = c.toNat := by omega
          rw [harith, Char.ofNat_toNat]
        · have hesc : escChar c = [c] := by simp [escChar, h1, h2, h3]
          rw [hesc]
          simp only [List.cons_append, List.nil_append]
          rw [parseStrBody.eq_def]
          simp [h1, h2, h3, ih]

/-- One unfolding step of `parseValue` on whitespace-free input. -/
theorem parseValue_step (f : Nat) (c : Char) (r : List Char) (hws : isWs c = false) :
    parseValue (f + 1) (c :: r) =
      if c = '[' then (parseItems f (skipWs r)).map fun p => (Json.arr p.1, p.2)
      else if c = '\x7b' then
        (parseMembers f (skipWs r)).map fun p => (Json.obj p.1, p.2)
      else if c = '\"' then
        (parseStrBody r).map fun p => (Json.str (String.mk p.1), p.2)
      else if c = 't' then
        (match r with
          | 'r' :: 'u' :: 'e' :: r2 => some (Json.bool true, r2)
          | _ => none)
      else if c = 'f' then
        (match r with
          | 'a' :: 'l' :: 's' :: 'e' :: r2 => some (Json.bool false, r2)
          | _ => none)
      else if c = 'n' then
        (match r with
          | 'u' :: 'l' :: 'l' :: r2 => some (Json.null, r2)
          | _ => none)
      else if c = '-' || isDigitCh c then
        (parseNumber (c :: r)).map fun p => (Json.num p.1, p.2)
      else none := by
  rw [parseValue.eq_def]
  simp [skipWs_cons c r hws]

/-- One unfolding step of `parseItems`. -/
theorem parseItems_step (f : Nat) (c : Char) (r : List Char) :
    parseItems (f + 1) (c :: r) =
      (if c = ']' then some ([], r)
      else
        match parseValue f (c :: r) with
        | none => none
        | some (v, r1) =>
          match skipWs r1 with
          | [] => none
          | d :: r2 =>
            if d = ',' then
              (parseItems f (skipWs r2)).map fun p => (v :: p.1, p.2)
            else if d = ']' then some ([v], r2)
            else none) := by
  rw [parseItems.eq_def]

/-- One unfolding step of `parseMembers`. -/
theorem parseMembers_step (f : Nat) (c : Char) (r : List Char) :
    parseMembers (f + 1) (c :: r) =
      (if c = '\x7d' then some ([], r)
      else if c = '\"' then
        match parseStrBody r with
        | none => none
        | some (k, r1) =>
          match skipWs r1 with
          | [] => none
          | d :: r2 =>
            if d = ':' then
              match parseValue f (skipWs r2) with
              | none => none
              | some (v, r3) =>
                match skipWs r3 with
                | [] => none
                | e2 :: r4 =>
                  if e2 = ',' then
                    (parseMembers f (skipWs r4)).map fun p =>
                      ((String.mk k, v) :: p.1, p.2)
                  else if e2 = '\x7d' then some ([(String.mk k, v)], r4)
                  else none
            else none
      else none) := by
  rw [parseMembers.eq_def]

/-- The joint round-trip statement for values, array elements and object
members: with enough fuel, parsing inverts serialisation and leaves the
rest of the input untouched. -/
theorem parseRound (fuel : Nat) :
    (∀ v rest, sizeJ v ≤ fuel → delimOk rest = true →
      parseValue fuel (ser v ++ rest) = some (v, rest))
  ∧ (∀ xs rest, sizeItems xs ≤ fuel →
      parseItems fuel (serItems xs ++ rest) = some (xs, rest))
  ∧ (∀ kvs rest, sizeMembers kvs ≤ fuel →
      parseMembers fuel (serMembers kvs ++ rest) = some (kvs, rest)) := by
  induction fuel with
  | zero =>
    refine ⟨fun v rest hs _ => absurd hs (by have := sizeJ_pos v; omega),
      fun xs rest hs => absurd hs (by have := sizeItems_pos xs; omega),
      fun kvs rest hs => absurd hs (by have := sizeMembers_pos kvs; omega)⟩
  | succ f ih =>
    obtain ⟨ihV, ihI, ihM⟩ := ih
    refine ⟨?_, ?_, ?_⟩
    · intro v rest hs hdel
      cases v with
      | null =>
        rw [ser_null]
        simp only [List.cons_append, List.nil_append]
        rw [parseValue_step f 'n' _ (by decide)]
        simp
      | bool b =>
        cases b with
        | true =>
          rw [ser_true]
          simp only [List.cons_append, List.nil_append]
          rw [parseValue_step f 't' _ (by decide)]
          simp
        | false =>
          rw [ser_false]
          simp only [List.cons_append, List.nil_append]
          rw [parseValue_step f 'f' _ (by decide)]
          simp
      | num n =>
        have hser : ser (Json.num n) = intChars n := by simp [ser]
        by_cases hneg : n < 0
        · rw [hser, show intChars n = '-' :: natChars n.natAbs from by
            simp [intChars, hneg], List.cons_append,
            parseValue_step f '-' _ (by decide)]
          norm_num
          rw [show '-' :: (natChars n.natAbs ++ rest) = intChars n ++ rest from by
            simp [intChars, hneg], parseNumber_intChars n rest hdel]
          rfl
        · rcases natChars_head n.natAbs with ⟨c, r0, hc0, hdig⟩
          have hic : intChars n = c :: r0 := by rw [intChars, if_neg hneg, hc0]
          have n1 : c ≠ '[' := digit_ne c hdig '[' (by decide)
          have n2 : c ≠ '\x7b' := digit_ne c hdig '\x7b' (by decide)
          have n3 : c ≠ '\"' := digit_ne c hdig '\"' (by decide)
          have n4 : c ≠ 't' := digit_ne c hdig 't' (by decide)
          have n5 : c ≠ 'f' := digit_ne c hdig 'f' (by decide)
          have n6 : c ≠ 'n' := digit_ne c hdig 'n' (by decide)
          rw [hser, hic, List.cons_append,
            parseValue_step f c _ (digit_not_ws c hdig)]
          simp only [n1, n2, n3, n4, n5, n6, if_false, hdig, Bool.or_true, if_true]
          rw [← List.cons_append, ← hic, parseNumber_intChars n rest hdel]
          rfl
      | str s =>
        rw [show ser (Json.str s) = '\"' :: (escBody s.data ++ ['\"']) from by
          simp [ser, strChars]]
        simp only [List.cons_append, List.append_assoc, List.nil_append]
        rw [parseValue_step f '\"' _ (by decide)]
        simp [parseStrBody_escBody]
      | arr xs =>
        have hsz : sizeItems xs ≤ f := by
          rw [show sizeJ (Json.arr xs) = 1 + sizeItems xs from by simp [sizeJ]] at hs
          omega
        rw [show ser (Json.arr xs) = '[' :: serItems xs from by simp [ser],
          List.cons_append, parseValue_step f '[' _ (by decide)]
        norm_num
        rw [skipWs_serItems_append, ihI xs rest hsz]
      | obj kvs =>
        have hsz : sizeMembers kvs ≤ f := by
          rw [show sizeJ (Json.obj kvs) = 1 + sizeMembers kvs from by simp [sizeJ]] at hs
          omega
        rw [show ser (Json.obj kvs) = '\x7b' :: serMembers kvs from by simp [ser],
          List.cons_append, parseValue_step f '\x7b' _ (by decide)]
        norm_num
        rw [skipWs_serMembers_append, ihM kvs rest hsz]
        simp
    · intro xs rest hs
      cases xs with
      | nil =>
        rw [show serItems [] = [']'] from by simp [serItems], List.cons_append,
          List.nil_append, parseItems_step f ']' rest]
        simp
      | cons x xs2 =>
        have hsx : sizeJ x ≤ f := by
          rw [show sizeItems (x :: xs2) = sizeJ x + sizeItems xs2 from by
            simp [sizeItems]] at hs
          have := sizeItems_pos xs2
          omega
        have hsxs : sizeItems xs2 ≤ f := by
          rw [show sizeItems (x :: xs2) = sizeJ x + sizeItems xs2 from by
            simp [sizeItems]] at hs
          have := sizeJ_pos x
          omega
        rcases ser_head x with ⟨c, r0, hc0, hws, hbr⟩
        cases xs2 with
        | nil =>
          rw [show serItems [x] = ser x ++ [']'] from by simp [serItems],
            List.append_assoc]
          simp only [List.cons_append, List.nil_append]
          rw [hc0, List.cons_append, parseItems_step f c _]
          simp only [hbr, if_false]
          rw [← List.cons_append, ← hc0,
            ihV x (']' :: rest) hsx (delimOk_cons_of ']' rest (by decide))]
          simp only []
          rw [skipWs_cons _ _ (by decide)]
          simp
        | cons y ys =>
          rw [show serItems (x :: y :: ys) = ser x ++ ',' :: serItems (y :: ys) from by
            simp [serItems], List.append_assoc, List.cons_append, hc0,
            List.cons_append, parseItems_step f c _]
          simp only [hbr, if_false]
          rw [← List.cons_append, ← hc0,
            ihV x (',' :: (serItems (y :: ys) ++ rest)) hsx
              (delimOk_cons_of ',' _ (by decide))]
          simp only []
          rw [skipWs_cons _ _ (by decide)]
          norm_num
          rw [skipWs_serItems_append, ihI (y :: ys) rest hsxs]
    · intro kvs rest hs
      cases kvs with
      | nil =>
        rw [show serMembers [] = ['\x7d'] from by simp [serMembers], List.cons_append,
          List.nil_append, parseMembers_step f '\x7d' rest]
        simp
      | cons kv kvs2 =>
        rcases kv with ⟨k, v⟩
        have hsv : sizeJ v ≤ f := by
          rw [show sizeMembers ((k, v) :: kvs2) = sizeJ v + sizeMembers kvs2 from by
            simp [sizeMembers]] at hs
          have := sizeMembers_pos kvs2
          omega
        have hsk : sizeMembers kvs2 ≤ f := by
          rw [show sizeMembers ((k, v) :: kvs2) = sizeJ v + sizeMembers kvs2 from by
            simp [sizeMembers]] at hs
          have := sizeJ_pos v
          omega
        cases kvs2 with
        | nil =>
          rw [show serMembers [(k, v)] = strChars k ++ ':' :: ser v ++ ['\x7d'] from by
            simp [serMembers], strChars]
          simp only [List.cons_append, List.append_assoc, List.nil_append]
          rw [parseMembers_step f '\"' _]
          norm_num
          rw [parseStrBody_escBody k.data (':' :: (ser v ++ '\x7d' :: rest))]
          simp only []
          rw [skipWs_cons _ _ (by decide)]
          norm_num
          rw [skipWs_ser_append,
            ihV v ('\x7d' :: rest) hsv (delimOk_cons_of '\x7d' rest (by decide))]
          simp only []
          rw [skipWs_cons _ _ (by decide)]
          simp
        | cons m ms =>
          rw [show serMembers ((k, v) :: m :: ms)
              = strChars k ++ ':' :: ser v ++ ',' :: serMembers (m :: ms) from by
            simp [serMembers], strChars]
          simp only [List.cons_append, List.append_assoc, List.nil_append]
          rw [parseMembers_step f '\"' _]
          norm_num
          rw [parseStrBody_escBody k.data
            (':' :: (ser v ++ ',' :: (serMembers (m :: ms) ++ rest)))]
          simp only []
          rw [skipWs_cons _ _ (by decide)]
          norm_num
          rw [skipWs_ser_append,
            ihV v (',' :: (serMembers (m :: ms) ++ rest)) hsv
              (delimOk_cons_of ',' _ (by decide))]
          simp only []
          rw [skipWs_cons _ _ (by decide)]
          norm_num
          rw [skipWs_serMembers_append, ihM (m :: ms) rest hsk]
          rfl

/-- The parser fuel requirement never exceeds the length of the
serialisation (joint statement, indexed by a structural-size bound). -/
theorem sizeLe (N : Nat) :
    (∀ v : Json, sizeOf v ≤ N → sizeJ v ≤ (ser v).length)
  ∧ (∀ xs : List Json, sizeOf xs ≤ N → sizeItems xs ≤ (serItems xs).length)
  ∧ (∀ kvs : List (String × Json),
      sizeOf kvs ≤ N → sizeMembers kvs ≤ (serMembers kvs).length) := by
  induction N with
  | zero =>
    refine ⟨fun v h => absurd h (by cases v <;> simp),
      fun xs h => absurd h (by cases xs <;> simp),
      fun kvs h => absurd h (by cases kvs <;> simp)⟩
  | succ N ih =>
    obtain ⟨ihV, ihI, ihM⟩ := ih
    refine ⟨?_, ?_, ?_⟩
    · intro v hv
      cases v with
      | null => simp [sizeJ, ser]
      | bool b => cases b <;> simp [sizeJ, ser]
      | num n =>
        rw [show ser (Json.num n) = intChars n from by simp [ser]]
        rcases natChars_head n.natAbs with ⟨c, r0, hc0, _⟩
        by_cases h : n < 0 <;> simp [sizeJ, intChars, h, hc0]
      | str s =>
        rw [show ser (Json.str s) = strChars s from by simp [ser]]
        simp [sizeJ, strChars]
      | arr xs =>
        have hxs : sizeOf xs ≤ N := by
          have : sizeOf (Json.arr xs) = 1 + sizeOf xs := by simp
          omega
        rw [show ser (Json.arr xs) = '[' :: serItems xs from by simp [ser]]
        have := ihI xs hxs
        simp only [sizeJ, List.length_cons]
        omega
      | obj kvs =>
        have hkvs : sizeOf kvs ≤ N := by
          have : sizeOf (Json.obj kvs) = 1 + sizeOf kvs := by simp
          omega
        rw [show ser (Json.obj kvs) = '\x7b' :: serMembers kvs from by simp [ser]]
        have := ihM kvs hkvs
        simp only [sizeJ, List.length_cons]
        omega
    · intro xs hxs
      cases xs with
      | nil => simp [sizeItems, serItems]
      | cons x xs2 =>
        have hcons : sizeOf (x :: xs2) = 1 + sizeOf x + sizeOf xs2 := by simp
        have hpx : 0 < sizeOf x := by cases x <;> simp_arith
        have hpxs : 0 < sizeOf xs2 := by cases xs2 <;> simp_arith
        have hx : sizeOf x ≤ N := by omega
        have hxs2 : sizeOf xs2 ≤ N := by omega
        have h1 := ihV x hx
        cases xs2 with
        | nil =>
          rw [show serItems [x] = ser x ++ [']'] from by simp [serItems]]
          simp only [sizeItems, List.length_append, List.length_cons,
            List.length_nil]
          omega
        | cons y ys =>
          have h2 := ihI (y :: ys) hxs2
          rw [show serItems (x :: y :: ys) = ser x ++ ',' :: serItems (y :: ys) from by
            simp [serItems]]
          simp only [sizeItems, List.length_append, List.length_cons] at *
          omega
    · intro kvs hkvs
      cases kvs with
      | nil => simp [sizeMembers, serMembers]
      | cons kv kvs2 =>
        rcases kv with ⟨k, v⟩
        have hcons : sizeOf ((k, v) :: kvs2) = 1 + (1 + sizeOf k + sizeOf v) + sizeOf kvs2 := by
          simp
        have hpv : 0 < sizeOf v := by cases v <;> simp_arith
        have hpkvs : 0 < sizeOf kvs2 := by cases kvs2 <;> simp_arith
        have hv : sizeOf v ≤ N := by omega
        have hkvs2 : sizeOf kvs2 ≤ N := by omega
        have h1 := ihV v hv
        cases kvs2 with
        | nil =>
          rw [show serMembers [(k, v)] = strChars k ++ ':' :: ser v ++ ['\x7d'] from by
            simp [serMembers]]
          simp only [sizeMembers, strChars, List.length_append, List.length_cons,
            List.length_nil]
          omega
        | cons m ms =>
          have h2 := ihM (m :: ms) hkvs2
          rw [show serMembers ((k, v) :: m :: ms)
              = strChars k ++ ':' :: ser v ++ ',' :: serMembers (m :: ms) from by
            simp [serMembers]]
          simp only [sizeMembers, strChars, List.length_append, List.length_cons] at *
          omega

/-- Fuel bound for `loads`: the size requirement of a value is at most the
length of its serialisation. -/
theorem sizeJ_le_length_ser (v : Json) : sizeJ v ≤ (ser v).length :=
  (sizeLe (sizeOf v)).1 v (Nat.le_refl _)

/-- Decoding inverts encoding: the JSON codec round-trips. -/
theorem loads_dumps (v : Json) : loads (dumps v) = some v := by
  have hsz := sizeJ_le_length_ser v
  have h := (parseRound ((ser v).length + 1)).1 v [] (by omega) (by rfl)
  rw [List.append_nil] at h
  simp only [loads, dumps]
  rw [h]
  simp [skipWs]

instance instDecEqJson : DecidableEq Json := fun a b =>
  if h : dumps a = dumps b then
    .isTrue (by
      have ha := loads_dumps a
      have hb := loads_dumps b
      rw [h, hb] at ha
      exact (Option.some.inj ha).symm)
  else .isFalse fun e => h (by rw [e])

/-- A content block as the decoders see it: `text = none` models a Python
block object without a `text` attribute (a non-textual block), in which
case attribute access raises `AttributeError`. -/
structure Block where
  text : Option String
deriving DecidableEq

/-- The value held by the `content` attribute of a result: Python `None` or a
list of blocks. -/
inductive ContentField where
  | pyNone : ContentField
  | pyList (bs : List Block) : ContentField
deriving DecidableEq

/-- A duck-typed invocation result object; either attribute may be absent
(`none`), in which case direct access raises `AttributeError` while
`hasattr`/`getattr` report absence. -/
structure ToolCallResult where
  content : Option ContentField
  isError : Option Bool
deriving DecidableEq

/-- Python exceptions the decoder bodies can raise or propagate. -/
inductive PyExc where
  | typeError : PyExc
  | attributeError : PyExc
deriving DecidableEq

/-- Observable outcome of one decoder run, one constructor per printing
branch of the Python code: the guard branch `Invalid or error result.`,
the JSON branch, the raw-text branch, and the
`Error parsing result` branch of the outer `except` clause. -/
inductive Outcome where
  | invalidResult : Outcome
  | structuredJson (v : Json) : Outcome
  | rawText (s : String) : Outcome
  | parseErrorDiag : Outcome
deriving DecidableEq

namespace Utils

/-- Embedding of `render_utility_result` from `src/utils.py`.  The guard is
`not result or not hasattr(result, "content") or getattr(result,
"isError", False)`; the body reads `result.content[0].text`, first trying
`json.loads` and falling back to the raw string on `JSONDecodeError`;
the outer `try` catches only `IndexError` and `AttributeError`
(`pprint`-ing the raw result), so subscripting a `None`/non-sequence
`content` raises an uncaught `TypeError`. -/
def render_utility_result : Option ToolCallResult → Except PyExc Outcome
  | none => .ok .invalidResult
  | some r =>
    match r.content, r.isError.getD false with
    | none, _ => .ok .invalidResult
    | some _, true => .ok .invalidResult
    | some .pyNone, false => .error .typeError
    | some (.pyList []), false => .ok .parseErrorDiag
    | some (.pyList (b :: _)), false =>
      match b.text with
      | none => .ok .parseErrorDiag
      | some t =>
        match loads t with
        | some v => .ok (.structuredJson v)
        | none => .ok (.rawText t)

end Utils

namespace StdioScript

/-- Embedding of `render_utility_result` from
`src/mcp_py_client_rust_server_stdio.py`.
The guard is `not result or not result.content or result.isError`
(direct attribute access: a missing attribute raises `AttributeError`
from the guard itself, outside any `try`; a `None` or empty `content` is
falsy and takes the invalid branch).  The body is the same as the
`utils.py` copy. -/
def render_utility_result : Option ToolCallResult → Except PyExc Outcome
  | none => .ok .invalidResult
  | some r =>
    match r.content with
    | none => .error .attributeError
    | some .pyNone => .ok .invalidResult
    | some (.pyList []) => .ok .invalidResult
    | some (.pyList (b :: _)) =>
      match r.isError with
      | none => .error .attributeError
      | some true => .ok .invalidResult
      | some false =>
        match b.text with
        | none => .ok .parseErrorDiag
        | some t =>
          match loads t with
          | some v => .ok (.structuredJson v)
          | none => .ok (.rawText t)

end StdioScript

/-- A well-formed `InvocationResult` object: a block sequence plus an
error flag, both attributes present. -/
def mkResult (bs : List Block) (e : Bool) : Option ToolCallResult :=
  some ⟨some (.pyList bs), some e⟩

/-- A textual content block. -/
def textBlock (t : String) : Block := ⟨some t⟩

/-- Outcomes in which the decoder prints a diagnostic together with the
raw result (`pprint(result)`): the two code-level realisations of the
spec-level `InvalidResult`. -/
def carriesRawDiagnostic : Outcome → Bool
  | .invalidResult => true
  | .parseErrorDiag => true
  | .structuredJson _ => false
  | .rawText _ => false

/-- One typed `ClientSession` operation, as invoked by the demo scripts;
`initializeOp` stands for the handshake method of the protocol (named
after the wire method, with an `Op` suffix). -/
inductive SessionOp where
  | initializeOp : SessionOp
  | listTools : SessionOp
  | callTool (name : String) (args : List (String × Json)) : SessionOp
  | listResources : SessionOp
  | readResource (uri : String) : SessionOp
  | listPrompts : SessionOp
  | getPrompt (name : String) (args : List (String × Json)) : SessionOp
deriving DecidableEq

/-- The session operations of `src/stdio_client.py`, in program order. -/
def stdioClientTrace : List SessionOp :=
  [ .initializeOp,
    .listTools,
    .callTool "add" [("a", .num 2), ("b", .num 3)],
    .callTool "multiply" [("a", .num 4), ("b", .num 5)],
    .callTool "reverse" [("text", .str "hello")],
    .listResources,
    .readResource "info://about",
    .readResource "greeting://Alice",
    .listPrompts,
    .getPrompt "summarize"
      [("text", .str "This is a long text that should be summarized.")] ]

/-- The session operations of `src/mcp_py_client_rust_server_stdio.py`,
in program order. -/
def rustServerStdioTrace : List SessionOp :=
  [ .initializeOp,
    .listTools,
    .callTool "about_info" [],
    .callTool "analysis_scan" [("path", .str "../"), ("display", .str "matrix")],
    .callTool "security_scan" [("path", .str "../")],
    .callTool "dependency_scan" [("path", .str "../")] ]

/-- The session operations of `src/mcp_py_client_rust_server_sse.py`, in
program order. -/
def rustServerSseTrace : List SessionOp :=
  [ .initializeOp,
    .listTools,
    .callTool "add" [("a", .num 2), ("b", .num 3)],
    .callTool "multiply" [("a", .num 4), ("b", .num 5)],
    .callTool "reverse" [("text", .str "hello")],
    .callTool "about_info" [],
    .callTool "greeting" [("name", .str "Alice")],
    .callTool "summarize"
      [("text", .str "This is a long text that should be summarized.")] ]

/-- The session operations of `test_simple_client.py`, in program order. -/
def testSimpleClientTrace : List SessionOp :=
  [ .initializeOp,
    .callTool "about_info" [],
    .callTool "security_scan" [("path", .str ".")],
    .callTool "analysis_scan" [("path", .str "."), ("display", .str "summary")] ]

/-- The session operations of `test_analysis.py`, in program order. -/
def testAnalysisTrace : List SessionOp :=
  [ .initializeOp,
    .callTool "analysis_scan"
      [("path", .str "./rust-mcp-server-syncable-cli"), ("display", .str "matrix")] ]

/-- Every client session the scripts establish directly through
`ClientSession`. -/
def allSessionTraces : List (List SessionOp) :=
  [stdioClientTrace, rustServerStdioTrace, rustServerSseTrace,
   testSimpleClientTrace, testAnalysisTrace]

/-- Stream-transport endpoint configuration a script passes at session
open: the URL and the transport tag. -/
structure StreamServerConfig where
  url : String
  transport : String
deriving DecidableEq

/-- Configuration in `src/langgraph_sse_demo.py`: `MultiServerMCPClient` entry
named `demo`. -/
def langgraphSseDemoConfig : StreamServerConfig :=
  ⟨"http://127.0.0.1:8000/sse", "streamable_http"⟩

/-- Configuration in `src/langgraph_mcp_py_client_rust_server_sse.py`:
`MultiServerMCPClient` entry named `rust_server`. -/
def langgraphRustSseConfig : StreamServerConfig :=
  ⟨"http://127.0.0.1:8001/sse", "sse"⟩

/-- Configuration in `src/agno_sse_demo.py`:
`MCPTools(url=server_url, transport="sse")`. -/
def agnoSseDemoConfig : StreamServerConfig :=
  ⟨"http://127.0.0.1:8008/sse", "sse"⟩

/-- The script `src/mcp_py_client_rust_server_sse.py` passes this URL directly to
`sse_client`, whose endpoint kind is the event stream (tag `sse`). -/
def sseClientConfig : StreamServerConfig :=
  ⟨"http://127.0.0.1:8001/sse", "sse"⟩

/-- All stream-transport configurations found in the scripts. -/
def streamConfigs : List StreamServerConfig :=
  [sseClientConfig, langgraphSseDemoConfig, langgraphRustSseConfig, agnoSseDemoConfig]

/-- The fixed well-known event-stream sub-path. -/
def sseSubPath : String := "/sse"

/-- Whether a URL already ends with the event-stream sub-path (a base URL
does not: the client appends it). -/
def endsWithSse (u : String) : Bool :=
  sseSubPath.data.isSuffixOf u.data

/-- Whether the transport tag of a configuration names the event-stream
(`sse`) endpoint kind. -/
def tagMatchesSse (c : StreamServerConfig) : Bool :=
  c.transport = "sse"

/-- The first content block lacks a usable text payload: the sequence is
empty, or its first block is non-textual. -/
def contentUndecodable (bs : List Block) : Bool :=
  match bs with
  | [] => true
  | b :: _ => b.text.isNone

/-- C1: for every invocation result whose `isError` flag is true, both
copies of `render_utility_result` take the `Invalid or error result.`
branch (the `InvalidResult` outcome), whatever value the `content`
attribute holds; text extraction and JSON parsing are never reached. -/
theorem C1_isError_yields_invalid (cf : ContentField) :
    Utils.render_utility_result (some ⟨some cf, some true⟩)
        = .ok .invalidResult
  ∧ StdioScript.render_utility_result (some ⟨some cf, some true⟩)
        = .ok .invalidResult := by
  constructor
  · cases cf with
    | pyNone => rfl
    | pyList bs => cases bs <;> rfl
  · cases cf with
    | pyNone => rfl
    | pyList bs => cases bs <;> rfl

/-- C2: decoding a result whose first block text is the JSON
serialisation of a value `v` (with `isError` false) yields
`StructuredJson v` in both decoder copies: `json.loads` applied to the
serialised text recovers the original value (round-trip, via
`loads_dumps`). -/
theorem C2_structured_roundtrip (v : Json) (bs : List Block) :
    Utils.render_utility_result (mkResult (textBlock (dumps v) :: bs) false)
        = .ok (.structuredJson v)
  ∧ StdioScript.render_utility_result (mkResult (textBlock (dumps v) :: bs) false)
        = .ok (.structuredJson v) := by
  constructor
  · simp [Utils.render_utility_result, mkResult, textBlock, loads_dumps v]
  · simp [StdioScript.render_utility_result, mkResult, textBlock, loads_dumps v]

/-- C3: for every string `s` that `json.loads` rejects, decoding a result
whose first block text is `s` (with `isError` false) yields `RawText`
carrying `s` itself, unmodified, in both decoder copies. -/
theorem C3_rawtext_on_parse_failure (s : String) (bs : List Block)
    (h : loads s = none) :
    Utils.render_utility_result (mkResult (textBlock s :: bs) false)
        = .ok (.rawText s)
  ∧ StdioScript.render_utility_result (mkResult (textBlock s :: bs) false)
        = .ok (.rawText s) := by
  constructor
  · simp [Utils.render_utility_result, mkResult, textBlock, h]
  · simp [StdioScript.render_utility_result, mkResult, textBlock, h]

/-- C3 witness: the `about_info` scenario of the spec — the non-JSON payload
`demo server` decodes to `RawText "demo server"`. -/
theorem C3_witness :
    loads "demo server" = none
  ∧ (Utils.render_utility_result (mkResult [textBlock "demo server"] false)
        = .ok (.rawText "demo server")
    ∧ StdioScript.render_utility_result (mkResult [textBlock "demo server"] false)
        = .ok (.rawText "demo server")) :=
  ⟨rfl, C3_rawtext_on_parse_failure "demo server" [] rfl⟩

/-- C4 counterexample: on a result with empty content (`isError` false),
the `utils.py` decoder does not take the `Invalid or error result.`
branch that realises `InvalidResult`: the guard passes (it never checks
emptiness) and `content[0]` raises `IndexError`, landing in the
`Error parsing result` branch — a different outcome than the invalid branch
of the stdio copy. -/
theorem C4_counterexample :
    Utils.render_utility_result (mkResult [] false) = .ok .parseErrorDiag
  ∧ StdioScript.render_utility_result (mkResult [] false) = .ok .invalidResult
  ∧ Outcome.parseErrorDiag ≠ Outcome.invalidResult :=
  ⟨rfl, rfl, by decide⟩

/-- C4 amended: for every result with empty content or a non-textual
first block, both decoders end in a diagnostic branch that carries the
raw result (`pprint`) and never produce `StructuredJson` or `RawText`;
on empty content the stdio copy takes the `Invalid or error result.`
branch while `utils.py` takes the `Error parsing result` branch, and a
non-textual first block takes the latter branch in both. -/
theorem C4_amended_diagnostic (bs : List Block) (e : Bool)
    (h : contentUndecodable bs = true) :
    (∃ o, Utils.render_utility_result (mkResult bs e) = .ok o
      ∧ carriesRawDiagnostic o = true)
  ∧ (∃ o, StdioScript.render_utility_result (mkResult bs e) = .ok o
      ∧ carriesRawDiagnostic o = true) := by
  cases bs with
  | nil =>
    cases e with
    | true => exact ⟨⟨.invalidResult, rfl, rfl⟩, ⟨.invalidResult, rfl, rfl⟩⟩
    | false => exact ⟨⟨.parseErrorDiag, rfl, rfl⟩, ⟨.invalidResult, rfl, rfl⟩⟩
  | cons b bs2 =>
    rcases b with ⟨tb⟩
    cases tb with
    | some t => simp [contentUndecodable] at h
    | none =>
      cases e with
      | true => exact ⟨⟨.invalidResult, rfl, rfl⟩, ⟨.invalidResult, rfl, rfl⟩⟩
      | false => exact ⟨⟨.parseErrorDiag, rfl, rfl⟩, ⟨.parseErrorDiag, rfl, rfl⟩⟩

/-- C4 witness: the empty-content result, with the concrete
diagnostic outcomes. -/
theorem C4_witness :
    contentUndecodable [] = true
  ∧ ((∃ o, Utils.render_utility_result (mkResult [] false) = .ok o
        ∧ carriesRawDiagnostic o = true)
    ∧ (∃ o, StdioScript.render_utility_result (mkResult [] false) = .ok o
        ∧ carriesRawDiagnostic o = true)) :=
  ⟨rfl, C4_amended_diagnostic [] false rfl⟩

/-- C5 counterexample: the decoder is not total over duck-typed results —
with `content = None` (attribute present, `isError = False`) the
`utils.py` guard passes (`hasattr` is true) and `result.content[0]`
raises a `TypeError`, which the `except (IndexError, AttributeError)`
clause does not catch: the exception propagates to the caller. -/
theorem C5_counterexample :
    Utils.render_utility_result (some ⟨some ContentField.pyNone, some false⟩)
      = .error .typeError := rfl

/-- C5 amended: both decoders are total — they return one of the four
branch outcomes and propagate no exception — on every result whose
`content` attribute holds an actual block sequence (any blocks, any
error flag); totality fails only on degenerate duck-typed inputs
(`utils.py` raises `TypeError` on `content = None` or a non-sequence;
the stdio copy raises `AttributeError` when `content` or `isError` is
absent). -/
theorem C5_amended_total_on_sequences (bs : List Block) (e : Bool) :
    (∃ o, Utils.render_utility_result (mkResult bs e) = .ok o)
  ∧ (∃ o, StdioScript.render_utility_result (mkResult bs e) = .ok o) := by
  cases bs with
  | nil =>
    cases e with
    | true => exact ⟨⟨.invalidResult, rfl⟩, ⟨.invalidResult, rfl⟩⟩
    | false => exact ⟨⟨.parseErrorDiag, rfl⟩, ⟨.invalidResult, rfl⟩⟩
  | cons b bs2 =>
    rcases b with ⟨tb⟩
    cases tb with
    | none =>
      cases e with
      | true => exact ⟨⟨.invalidResult, rfl⟩, ⟨.invalidResult, rfl⟩⟩
      | false => exact ⟨⟨.parseErrorDiag, rfl⟩, ⟨.parseErrorDiag, rfl⟩⟩
    | some t =>
      cases e with
      | true => exact ⟨⟨.invalidResult, rfl⟩, ⟨.invalidResult, rfl⟩⟩
      | false =>
        cases hl : loads t with
        | some v =>
          refine ⟨⟨.structuredJson v, ?_⟩, ⟨.structuredJson v, ?_⟩⟩ <;>
            simp [Utils.render_utility_result, StdioScript.render_utility_result,
              mkResult, hl]
        | none =>
          refine ⟨⟨.rawText t, ?_⟩, ⟨.rawText t, ?_⟩⟩ <;>
            simp [Utils.render_utility_result, StdioScript.render_utility_result,
              mkResult, hl]

/-- C6: the decoded outcome depends only on the first content block: two
results that agree on the first block and the error flag but differ in
the blocks after the first decode identically, in both copies. -/
theorem C6_first_block_only (b : Block) (bs1 bs2 : List Block) (e : Bool) :
    Utils.render_utility_result (mkResult (b :: bs1) e)
      = Utils.render_utility_result (mkResult (b :: bs2) e)
  ∧ StdioScript.render_utility_result (mkResult (b :: bs1) e)
      = StdioScript.render_utility_result (mkResult (b :: bs2) e) := by
  constructor <;> cases e <;> rfl

/-- C7: in every client session the scripts establish through
`ClientSession`, the `initialize` handshake is the first session
operation, and no operation that precedes it exists (nor does
`initialize` recur later in the trace). -/
theorem C7_handshake_first :
    (stdioClientTrace.head? = some SessionOp.initializeOp
      ∧ SessionOp.initializeOp ∉ stdioClientTrace.tail)
  ∧ (rustServerStdioTrace.head? = some SessionOp.initializeOp
      ∧ SessionOp.initializeOp ∉ rustServerStdioTrace.tail)
  ∧ (rustServerSseTrace.head? = some SessionOp.initializeOp
      ∧ SessionOp.initializeOp ∉ rustServerSseTrace.tail)
  ∧ (testSimpleClientTrace.head? = some SessionOp.initializeOp
      ∧ SessionOp.initializeOp ∉ testSimpleClientTrace.tail)
  ∧ (testAnalysisTrace.head? = some SessionOp.initializeOp
      ∧ SessionOp.initializeOp ∉ testAnalysisTrace.tail) :=
  ⟨⟨rfl, by decide⟩, ⟨rfl, by decide⟩, ⟨rfl, by decide⟩, ⟨rfl, by decide⟩,
    ⟨rfl, by decide⟩⟩

/-- C8 counterexample: the stream-transport scripts do not supply a base
URL — every configured URL already ends in the fixed `/sse` sub-path, so
the caller itself supplies the full event-stream endpoint — and
`langgraph_sse_demo.py` pairs the transport tag `streamable_http` with an
`/sse` URL, so the tag does not always match the endpoint kind. -/
theorem C8_counterexample :
    endsWithSse sseClientConfig.url = true
  ∧ endsWithSse langgraphSseDemoConfig.url = true
  ∧ tagMatchesSse langgraphSseDemoConfig = false := by
  refine ⟨by decide, by decide, by decide⟩

/-- C8 amended: every stream-transport configuration in the scripts
carries the full event-stream endpoint (URL ending in `/sse`) rather
than a base URL; the transport tag names the `sse` endpoint kind in all
scripts except `langgraph_sse_demo.py`, whose `streamable_http` tag
clashes with its `/sse` URL. -/
theorem C8_amended_full_endpoint :
    (streamConfigs.all fun c => endsWithSse c.url) = true
  ∧ tagMatchesSse sseClientConfig = true
  ∧ tagMatchesSse langgraphRustSseConfig = true
  ∧ tagMatchesSse agnoSseDemoConfig = true
  ∧ tagMatchesSse langgraphSseDemoConfig = false := by
  refine ⟨by decide, by decide, by decide, by decide, by decide⟩

/-- C9 counterexample: the two decoder copies are not equivalent — on the
empty-content result one lands in the `Error parsing result` diagnostic
and the other in the `Invalid or error result.` branch, and on a result
lacking the `content` attribute the `utils.py` copy returns the invalid
outcome while the stdio copy raises `AttributeError`. -/
theorem C9_counterexample :
    Utils.render_utility_result (mkResult [] false)
      ≠ StdioScript.render_utility_result (mkResult [] false)
  ∧ Utils.render_utility_result (some ⟨none, some false⟩) = .ok .invalidResult
  ∧ StdioScript.render_utility_result (some ⟨none, some false⟩)
      = .error .attributeError := by
  refine ⟨fun h => absurd (Except.ok.inj h) (by decide), rfl, rfl⟩

/-- C9 amended: the two copies agree — same branch and same extracted
payload — on every result whose content is a non-empty block sequence
with both attributes present; they diverge only on the degenerate inputs
(empty content, `None` content, absent attributes). -/
theorem C9_amended_agree_on_nonempty (b : Block) (bs : List Block) (e : Bool) :
    Utils.render_utility_result (mkResult (b :: bs) e)
      = StdioScript.render_utility_result (mkResult (b :: bs) e) := by
  cases e <;> rfl

/-- C10: with a textual first block and `isError` false, the decoded
outcome is exactly determined by `json.loads`: every successfully parsed
document — objects, arrays, or bare scalars such as `5`, `true`, `null` —
yields `StructuredJson`, and `RawText` occurs exactly when parsing
fails. -/
theorem C10_structured_iff_parses (t : String) (bs : List Block) :
    (Utils.render_utility_result (mkResult (textBlock t :: bs) false)
        = match loads t with
          | some v => .ok (.structuredJson v)
          | none => .ok (.rawText t))
  ∧ (StdioScript.render_utility_result (mkResult (textBlock t :: bs) false)
        = match loads t with
          | some v => .ok (.structuredJson v)
          | none => .ok (.rawText t))
  ∧ loads "5" = some (Json.num 5)
  ∧ loads "true" = some (Json.bool true)
  ∧ loads "null" = some Json.null :=
  ⟨rfl, rfl, rfl, rfl, rfl⟩

end MCPCore
